import Mathlib

/-!
Verification development for the News-Chatbot backend core
(session/cache layer and RAG orchestration pipeline).

The JavaScript source is shallowly embedded:
* JS strings are modelled as `List Char` (`Str`) where character-level
  operations (split, trim, startsWith, length) matter, and as Lean `String`
  where the payload is opaque.
* JS numbers used as similarity distances are modelled as `ℚ` (the code only
  compares them against the literal `0.8`).
* Stateful Redis calls are modelled as explicit state passing; the network
  clients (embedding model, vector store, LLM) are opaque function parameters.
-/

abbrev Str := List Char

/-- Whitespace characters removed by JS `String.prototype.trim` (the common
ASCII subset; the builder only ever produces `'\n'` at the boundary). -/
def isJsWhitespace (c : Char) : Bool :=
  c = ' ' || c = '\t' || c = '\n' || c = '\r' || c = '\x0b' || c = '\x0c'

/-- Leading-whitespace removal half of JS `trim`. -/
def jsTrimLeft (s : Str) : Str := s.dropWhile isJsWhitespace

/-- Trailing-whitespace removal half of JS `trim`. -/
def jsTrimRight (s : Str) : Str := (s.reverse.dropWhile isJsWhitespace).reverse

/-- JS `String.prototype.trim`: strip leading and trailing whitespace. -/
def jsTrim (s : Str) : Str := jsTrimRight (jsTrimLeft s)

/-- JS `String.prototype.split(sep)` for a one-character separator: the
result always has one more fragment than there are separators, so it is
never empty (`"".split = [""]`). -/
def splitOnChar (c : Char) : Str → List Str
  | [] => [[]]
  | x :: xs =>
    if x = c then [] :: splitOnChar c xs
    else
      match splitOnChar c xs with
      | [] => [[x]]
      | l :: ls => (x :: l) :: ls

/-- JS `String.prototype.startsWith(key)` on `line`. -/
def jsStartsWith : Str → Str → Bool
  | _, [] => true
  | [], _ :: _ => false
  | c :: cs, k :: ks => (c == k) && jsStartsWith cs ks

/- Fixed-field keys of the context block format built by `buildContext`
(chatbot.service.js lines 95-100) and scanned by `extractSources`. -/

/-- The literal `"Title: "`. -/
def titleKey : Str := ['T', 'i', 't', 'l', 'e', ':', ' ']

/-- The literal `"Source: "`. -/
def sourceKey : Str := ['S', 'o', 'u', 'r', 'c', 'e', ':', ' ']

/-- The literal `"URL: "`. -/
def urlKey : Str := ['U', 'R', 'L', ':', ' ']

/-- The literal `"Content: "`. -/
def contentKey : Str := ['C', 'o', 'n', 't', 'e', 'n', 't', ':', ' ']

/-- The block separator literal `"---"`. -/
def dashesStr : Str := ['-', '-', '-']

/-- The fallback literal `"Unknown"` used for a missing title/source. -/
def unknownStr : Str := ['U', 'n', 'k', 'n', 'o', 'w', 'n']

/-- The fallback literal `"N/A"` used for a missing url. -/
def naStr : Str := ['N', '/', 'A']

/-! ## Session data model (session.service.js / redis.service.js) -/

/-- A chat message as built by `SessionService.addMessage` and stored by
`RedisService.addToSessionHistory`.  `timestamp` is `none` until the store
stamps the message at append time. -/
structure Message where
  role : String
  content : String
  metadata : Option String
  id : String
  timestamp : Option String
deriving DecidableEq, Repr

/-- The spread `{ ...message, timestamp: new Date().toISOString() }` of
redis.service.js line 63. -/
def withTimestamp (m : Message) (now : String) : Message :=
  { m with timestamp := some now }

/-- JS `arr.slice(-n)` for a nonnegative `n`.  Note the JS edge case:
`slice(-0)` is `slice(0)`, i.e. the whole array, not the empty one. -/
def sliceLast (l : List α) (n : Nat) : List α :=
  if n = 0 then l else l.drop (l.length - n)

/-- The state transition of `addToSessionHistory` on the stored log when the
store is reachable (redis.service.js lines 62-81): load, append the
timestamped message, keep only the last 50 entries, write back. -/
def addToSessionHistoryCore (history : List Message) (message : Message) (now : String) :
    List Message :=
  sliceLast (history ++ [withTimestamp message now]) 50

/-- Stored log of a fresh session after a sequence of (message, append-time)
pairs has been appended via `addToSessionHistory`. -/
def sessionAfter (pairs : List (Message × String)) : List Message :=
  pairs.foldl (fun h p => addToSessionHistoryCore h p.1 p.2) []

/-- The full logical history of a sequence of appends: every appended
message, timestamped, oldest first. -/
def logicalHistory (pairs : List (Message × String)) : List Message :=
  pairs.map fun p => withTimestamp p.1 p.2

/-- Error kind named by the specification for a write against an
unreachable store. -/
inductive StoreError where
  | storeUnavailable
deriving DecidableEq, Repr

/-- `addToSessionHistory` with the connection flag made explicit
(redis.service.js lines 55-86).  Returns the JS return value (wrapped in
`Except` so that the specification's claimed failure mode is expressible)
together with the value written to the session key (`none` = no write).
When `isConnected` is false the code logs a warning and returns `[]`
without writing; it does not throw. -/
def addToSessionHistory (isConnected : Bool) (stored : List Message) (message : Message)
    (now : String) : Except StoreError (List Message) × Option (List Message) :=
  if !isConnected then (Except.ok [], none)
  else
    let trimmedHistory := addToSessionHistoryCore stored message now
    (Except.ok trimmedHistory, some trimmedHistory)

/-- Redis `SETEX key value` on a key-value store: plain overwrite of one
key (TTL bookkeeping not modelled). -/
def setKeyEx (st : String → Option String) (k v : String) : String → Option String :=
  fun q => if q = k then some v else st q

/-- The `{role, content}` projection returned by `getContextForRAG`. -/
structure ContextMessage where
  role : String
  content : String
deriving DecidableEq, Repr

/-- `SessionService.getContextForRAG` (session.service.js lines 43-54) as a
function of the stored history: `history.slice(-maxMessages)` mapped to
`{role, content}` pairs. -/
def getContextForRAG (history : List Message) (maxMessages : Nat) : List ContextMessage :=
  (sliceLast history maxMessages).map fun msg => ⟨msg.role, msg.content⟩

/-! ## Retrieval results and context building (chatbot.service.js) -/

/-- Per-document metadata as consumed by `buildContext`; a field is `none`
when absent and the code falls back via `||`. -/
structure DocMetadata where
  title : Option Str
  source : Option Str
  url : Option Str
deriving DecidableEq, Repr

/-- A raw ChromaDB query result: parallel per-query arrays of documents,
metadata and distances (the code only reads row 0 of each). -/
structure SearchResults where
  documents : List (List Str)
  metadatas : List (List DocMetadata)
  distances : List (List ℚ)
deriving DecidableEq, Repr

/-- `meta.title || 'Unknown'`: JS falsiness makes both a missing title and
an empty-string title fall back. -/
def renderTitle (meta : DocMetadata) : Str :=
  match meta.title with
  | some t => if t.isEmpty then unknownStr else t
  | none => unknownStr

/-- `meta.source || 'Unknown'`. -/
def renderSource (meta : DocMetadata) : Str :=
  match meta.source with
  | some s => if s.isEmpty then unknownStr else s
  | none => unknownStr

/-- `meta.url || 'N/A'`. -/
def renderUrl (meta : DocMetadata) : Str :=
  match meta.url with
  | some u => if u.isEmpty then naStr else u
  | none => naStr

/-- Body of a formatted passage block, after its leading newline. -/
def innerBlock (meta : DocMetadata) (doc : Str) : Str :=
  titleKey ++ renderTitle meta ++
    '\n' :: (sourceKey ++ renderSource meta ++
      '\n' :: (urlKey ++ renderUrl meta ++
        '\n' :: (contentKey ++ doc ++ '\n' :: dashesStr)))

/-- The template literal of chatbot.service.js lines 95-100:
newline, `Title:`/`Source:`/`URL:`/`Content:` lines, separator. -/
def docContextBlock (meta : DocMetadata) (doc : Str) : Str :=
  '\n' :: innerBlock meta doc

/-- The similarity-distance cutoff `0.8` of chatbot.service.js line 93:
the rational `4/5`, written in normal form so that comparisons against it
are kernel-computable. -/
def distanceCutoff : ℚ := ⟨4, 5, by decide, by decide⟩

/-- The loop of `buildContext` (chatbot.service.js lines 87-108), walking
the three parallel arrays in lockstep: skip a passage whose distance
exceeds 0.8, break at the first block whose addition would exceed
`maxLength`, otherwise append the block and account its length. -/
def buildContextLoop :
    List Str → List DocMetadata → List ℚ → Nat → Nat → Str → Str
  | doc :: docs, meta :: metas, distance :: dists, maxLength, currentLength, context =>
    if distance > distanceCutoff then
      buildContextLoop docs metas dists maxLength currentLength context
    else
      let docContext := docContextBlock meta doc
      if currentLength + docContext.length > maxLength then context
      else
        buildContextLoop docs metas dists maxLength
          (currentLength + docContext.length) (context ++ docContext)
  | _, _, _, _, _, context => context

/-- `buildContext(searchResults, maxLength)` (chatbot.service.js lines
79-111): run the accumulation loop over row 0 of the result arrays, then
`trim` the accumulated text. -/
def buildContext (searchResults : SearchResults) (maxLength : Nat) : Str :=
  jsTrim (buildContextLoop (searchResults.documents.headD [])
    (searchResults.metadatas.headD []) (searchResults.distances.headD []) maxLength 0 [])

/-- `MAX_CONTEXT_LENGTH` default (chatbot.service.js line 13). -/
def MAX_CONTEXT_LENGTH : Nat := 4000

/-- The passages whose blocks `buildContextLoop` actually appends, in
order: mirror of the loop that collects `(meta, doc)` instead of text. -/
def includedLoop :
    List Str → List DocMetadata → List ℚ → Nat → Nat → List (DocMetadata × Str)
  | doc :: docs, meta :: metas, distance :: dists, maxLength, currentLength =>
    if distance > distanceCutoff then
      includedLoop docs metas dists maxLength currentLength
    else
      let docContext := docContextBlock meta doc
      if currentLength + docContext.length > maxLength then []
      else
        (meta, doc) :: includedLoop docs metas dists maxLength
          (currentLength + docContext.length)
  | _, _, _, _, _ => []

/-- The passages included in the context built for `searchResults` at
budget `maxLength`. -/
def includedPassages (searchResults : SearchResults) (maxLength : Nat) :
    List (DocMetadata × Str) :=
  includedLoop (searchResults.documents.headD []) (searchResults.metadatas.headD [])
    (searchResults.distances.headD []) maxLength 0

/-- Row-0 (document, metadata, distance) triples the loop walks in
lockstep. -/
def rowTriples (searchResults : SearchResults) : List (Str × DocMetadata × ℚ) :=
  (searchResults.documents.headD []).zip
    ((searchResults.metadatas.headD []).zip (searchResults.distances.headD []))

/-- The triples surviving the distance filter. -/
def keptTriples (searchResults : SearchResults) : List (Str × DocMetadata × ℚ) :=
  (rowTriples searchResults).filter fun t => !(t.2.2 > distanceCutoff)

/-- The search result with every passage of distance above the cutoff
removed (and the junk beyond the shortest row-0 array dropped). -/
def filterByDistance (searchResults : SearchResults) : SearchResults where
  documents := [(keptTriples searchResults).map fun t => t.1]
  metadatas := [(keptTriples searchResults).map fun t => t.2.1]
  distances := [(keptTriples searchResults).map fun t => t.2.2]

/-- Modelled from the spec's words (§4.4): "Accumulates blocks until adding
the next would exceed `maxChars`; stops there (never splits a block)."
Used to compare the code's accumulation loop against the specification. -/
def greedyWholeBlocks : List Str → Nat → Nat → List Str
  | [], _, _ => []
  | b :: bs, maxChars, acc =>
    if acc + b.length > maxChars then []
    else b :: greedyWholeBlocks bs maxChars (acc + b.length)

/-- The formatted blocks of the distance-surviving passages, in rank
order. -/
def keptBlocks (searchResults : SearchResults) : List Str :=
  (keptTriples searchResults).map fun t => docContextBlock t.2.1 t.1

/-! ## Source extraction (chatbot.service.js lines 156-176) -/

/-- The mutable `currentSource` object of `extractSources`: each field is
`none` until its line has been seen (JS `undefined`). -/
structure CurrentSource where
  title : Option Str
  source : Option Str
  url : Option Str
deriving DecidableEq, Repr

/-- The empty object `{}` the scanner starts from and resets to. -/
def emptyCurrentSource : CurrentSource := ⟨none, none, none⟩

/-- JS truthiness of `currentSource.title` / `.source`: `undefined` and the
empty string are falsy, every other string is truthy. -/
def truthy : Option Str → Bool
  | none => false
  | some s => !s.isEmpty

/-- The line scanner of `extractSources`: a `Title: `/`Source: ` line sets
the field (dropping the key, which is what `line.replace(key, '')` does on
a line that starts with the key); a `URL: ` line sets `url`, pushes the
current object when both `title` and `source` are truthy, and resets. -/
def extractSourcesLoop : List Str → CurrentSource → List CurrentSource
  | [], _ => []
  | line :: rest, cur =>
    if jsStartsWith line titleKey then
      extractSourcesLoop rest { cur with title := some (line.drop titleKey.length) }
    else if jsStartsWith line sourceKey then
      extractSourcesLoop rest { cur with source := some (line.drop sourceKey.length) }
    else if jsStartsWith line urlKey then
      let cur' := { cur with url := some (line.drop urlKey.length) }
      if truthy cur'.title && truthy cur'.source then
        cur' :: extractSourcesLoop rest emptyCurrentSource
      else
        extractSourcesLoop rest emptyCurrentSource
    else
      extractSourcesLoop rest cur

/-- `extractSources(context)`: split on newlines and scan. -/
def extractSources (context : Str) : List CurrentSource :=
  extractSourcesLoop (splitOnChar '\n' context) emptyCurrentSource

/-- The source entry `extractSources` recovers from a clean formatted block
of a passage with metadata `meta`. -/
def entryOfMeta (meta : DocMetadata) : CurrentSource :=
  ⟨some (renderTitle meta), some (renderSource meta), some (renderUrl meta)⟩

/-- Cleanliness condition on one included passage under which the
fixed-field block format is unambiguous: the rendered metadata fields
contain no newline, and no line of the `Content: `-prefixed document text
looks like one of the three scanned keys. -/
def CleanPassage (meta : DocMetadata) (doc : Str) : Prop :=
  '\n' ∉ renderTitle meta ∧ '\n' ∉ renderSource meta ∧ '\n' ∉ renderUrl meta ∧
    ∀ l ∈ splitOnChar '\n' (contentKey ++ doc),
      jsStartsWith l titleKey = false ∧ jsStartsWith l sourceKey = false ∧
        jsStartsWith l urlKey = false

instance (meta : DocMetadata) (doc : Str) : Decidable (CleanPassage meta doc) := by
  unfold CleanPassage; infer_instance

/-! ## Query processing (chatbot.service.js lines 41-77 and 179-215) -/

/-- The observable outcome of the opaque Gemini call made by
`generateResponse`: the model text and the `usageMetadata` token count. -/
structure GenOut where
  text : String
  tokens : Option Nat
deriving DecidableEq, Repr

/-- The `{content, sources, tokensUsed}` object `processQuery` returns. -/
structure ChatbotResponse where
  content : String
  sources : List CurrentSource
  tokensUsed : Option Nat
deriving DecidableEq, Repr

/-- The fixed message returned when retrieval yields zero documents
(chatbot.service.js line 188). -/
def noResultsMsg : String :=
  "I couldn't find any relevant information in the news database to answer your question. Please try rephrasing your query or ask about different topics."

/-- The fixed message returned when the built context is empty
(chatbot.service.js line 199). -/
def notRelatedMsg : String :=
  "I found some potentially relevant articles, but they don't seem closely related to your question. Could you try asking about something more specific?"

/-- `generateResponse` (chatbot.service.js lines 113-154) with the LLM call
abstracted as `gen` applied to the built context (the query and trimmed
conversation history enter only through the opaque prompt): the returned
object pairs the model text and token usage with the sources parsed back
out of the context block. -/
def generateResponse (gen : Str → GenOut) (context : Str) : ChatbotResponse :=
  { content := (gen context).text
    sources := extractSources context
    tokensUsed := (gen context).tokens }

/-- `processQuery` (chatbot.service.js lines 179-215) for a query whose
retrieval already resolved to `searchResults`: short-circuit on zero
documents, build the context, short-circuit when it is empty, otherwise
generate.  The boolean records whether the generation step ran. -/
def processQuery (searchResults : SearchResults) (gen : Str → GenOut) :
    ChatbotResponse × Bool :=
  if (searchResults.documents.headD []).isEmpty then
    ({ content := noResultsMsg, sources := [], tokensUsed := none }, false)
  else
    let context := buildContext searchResults MAX_CONTEXT_LENGTH
    if context.isEmpty then
      ({ content := notRelatedMsg, sources := [], tokensUsed := none }, false)
    else
      (generateResponse gen context, true)

/-- `searchChroma` (chatbot.service.js lines 41-77) with the MD5 hash, the
query cache and the embed-then-vector-search path abstracted: on a cache
hit return the cached result as is; on a miss run the live path and write
its result into the cache.  The boolean records whether the live
embedding/vector-search path ran; the third component is the cache after
the call. -/
def searchChroma (hash : String → String) (cache : String → Option SearchResults)
    (embedSearch : String → SearchResults) (query : String) :
    SearchResults × Bool × (String → Option SearchResults) :=
  let queryHash := hash query
  match cache queryHash with
  | some cached => (cached, false, cache)
  | none =>
    let results := embedSearch query
    (results, true, fun h => if h = queryHash then some results else cache h)

/-! ## Derived shapes used by the proofs -/

/-- The line list `extractSources` sees for one cleanly formatted block. -/
def bodyLines (meta : DocMetadata) (doc : Str) : List Str :=
  (titleKey ++ renderTitle meta) :: (sourceKey ++ renderSource meta) ::
    (urlKey ++ renderUrl meta) :: (splitOnChar '\n' (contentKey ++ doc) ++ [dashesStr])

/-- Line lists of a sequence of blocks, concatenated. -/
def allBodyLines : List (DocMetadata × Str) → List Str
  | [] => []
  | p :: ps => bodyLines p.1 p.2 ++ allBodyLines ps

/-- Concatenated formatted blocks of a passage sequence. -/
def blocksConcat : List (DocMetadata × Str) → Str
  | [] => []
  | p :: ps => docContextBlock p.1 p.2 ++ blocksConcat ps

/-! ## Concrete inputs for witnesses and counterexamples -/

/-- A sample stored message. -/
def msg0 : Message := ⟨"user", "hello", none, "id-0", none⟩

/-- A sample generation outcome. -/
def gen0 : Str → GenOut := fun _ => ⟨"answer", some 7⟩

/-- Sample passage metadata with all fields present. -/
def metaA : DocMetadata := ⟨some ['A'], some ['B'], some ['C']⟩

/-- Sample passage metadata exercising the `||` fallbacks. -/
def metaB : DocMetadata := ⟨none, some ['E'], some []⟩

/-- A one-line document. -/
def docA : Str := ['a', 'b']

/-- A clean multi-line document. -/
def docB : Str := ['c', '\n', 'd']

/-- A document whose text itself contains `Title:`/`Source:`/`URL:` lines,
which confuses the citation re-parser. -/
def docBad : Str :=
  'x' :: '\n' :: (titleKey ++ ['A'] ++ '\n' :: (sourceKey ++ ['B'] ++ '\n' :: (urlKey ++ ['C'])))

/-- A well-behaved two-passage search result. -/
def srGood : SearchResults := ⟨[[docA, docB]], [[metaA, metaB]], [[0, 0]]⟩

/-- A search result whose single document embeds fake citation lines. -/
def srBad : SearchResults := ⟨[[docBad]], [[metaA]], [[0]]⟩

/-- A search result with zero retrieved documents. -/
def srEmpty : SearchResults := ⟨[], [], []⟩

/-- A search result whose only passage is beyond the distance cutoff. -/
def srFar : SearchResults := ⟨[[docA]], [[metaA]], [[1]]⟩

/-- A sample query hash function (identity). -/
def hash0 : String → String := fun q => q

/-- A sample query cache holding a result for the key `"q"`. -/
def cache0 : String → Option SearchResults := fun h => if h = "q" then some srGood else none

/-- A sample live embed-and-search path. -/
def embed0 : String → SearchResults := fun _ => srFar

/-! ## Session-layer lemmas -/

lemma sliceLast_append_sliceLast (n : Nat) (hn : n ≠ 0) (L : List Message) (a : Message) :
    sliceLast (sliceLast L n ++ [a]) n = sliceLast (L ++ [a]) n := by
  unfold sliceLast
  simp only [if_neg hn]
  rcases le_or_lt L.length n with h | h
  · rw [Nat.sub_eq_zero_of_le h, List.drop_zero]
  · have hlen : (L.drop (L.length - n)).length = n := by
      rw [List.length_drop]; omega
    have h1 : (L.drop (L.length - n) ++ [a]).length - n = 1 := by
      simp only [List.length_append, hlen, List.length_cons, List.length_nil]
      omega
    have h2 : (L ++ [a]).length - n = (L.length - n) + 1 := by
      simp only [List.length_append, List.length_cons, List.length_nil]
      omega
    rw [h1, h2]
    rw [List.drop_append_of_le_length (by omega), List.drop_append_of_le_length (by omega),
      List.drop_drop]

lemma sessionAfter_from (pairs : List (Message × String)) :
    ∀ L : List Message,
      pairs.foldl (fun h p => addToSessionHistoryCore h p.1 p.2) (sliceLast L 50) =
        sliceLast (L ++ logicalHistory pairs) 50 := by
  induction pairs with
  | nil => intro L; simp [logicalHistory]
  | cons p ps ih =>
    intro L
    have hstep : addToSessionHistoryCore (sliceLast L 50) p.1 p.2 =
        sliceLast (L ++ [withTimestamp p.1 p.2]) 50 := by
      unfold addToSessionHistoryCore
      exact sliceLast_append_sliceLast 50 (by omega) L _
    simp only [List.foldl_cons, hstep, ih (L ++ [withTimestamp p.1 p.2])]
    simp [logicalHistory]

/-- C1: for every sequence of appends to one fresh session, the stored log
is exactly the last-50 window of the full logical history of appended
(timestamped) messages: its length never exceeds 50, it is a
most-recent-last suffix of the logical history, and eviction drops the
oldest entries first. -/
theorem session_log_last50_suffix (pairs : List (Message × String)) :
    sessionAfter pairs = sliceLast (logicalHistory pairs) 50 ∧
      (sessionAfter pairs).length ≤ 50 ∧
      sessionAfter pairs <:+ logicalHistory pairs := by
  have h0 : sessionAfter pairs = sliceLast (logicalHistory pairs) 50 := by
    have h := sessionAfter_from pairs []
    simpa [sessionAfter, sliceLast] using h
  refine ⟨h0, ?_, ?_⟩
  · rw [h0]
    unfold sliceLast
    rw [if_neg (by omega)]
    rw [List.length_drop]
    omega
  · rw [h0]
    unfold sliceLast
    rw [if_neg (by omega)]
    exact List.drop_suffix _ _

/-- C7 counterexample: at `n = 0` the code returns the whole stored log
(JS `slice(-0)` is `slice(0)`), so the result does not have at most `n`
entries. -/
theorem getContextForRAG_zero_counterexample :
    ¬ ((getContextForRAG [msg0] 0).length ≤ 0) := by
  decide

/-- C7 (amended): for every stored log and every `n ≥ 1`,
`getContextForRAG` returns at most `n` entries, and they are exactly the
chronologically last `min n length` messages of the stored log, in stored
order, each reduced to its `{role, content}` pair.  (At `n = 0` the code
instead returns the entire log so mapped, because JS `slice(-0)` is
`slice(0)`.) -/
theorem getContextForRAG_last_messages (history : List Message) (n : Nat) (hn : 1 ≤ n) :
    (getContextForRAG history n).length ≤ n ∧
      getContextForRAG history n =
        (history.drop (history.length - n)).map (fun m => ContextMessage.mk m.role m.content) ∧
      history.drop (history.length - n) <:+ history ∧
      (history.drop (history.length - n)).length = min n history.length := by
  have hne : n ≠ 0 := by omega
  unfold getContextForRAG sliceLast
  rw [if_neg hne]
  refine ⟨?_, rfl, List.drop_suffix _ _, ?_⟩
  · rw [List.length_map, List.length_drop]; omega
  · rw [List.length_drop]; omega

/-- Witness for C7 (amended) at a singleton log and `n = 1`. -/
theorem getContextForRAG_last_messages_witness :
    1 ≤ 1 ∧
      ((getContextForRAG [msg0] 1).length ≤ 1 ∧
        getContextForRAG [msg0] 1 =
          (([msg0] : List Message).drop (([msg0] : List Message).length - 1)).map
            (fun m => ContextMessage.mk m.role m.content) ∧
        ([msg0] : List Message).drop (([msg0] : List Message).length - 1) <:+ [msg0] ∧
        (([msg0] : List Message).drop (([msg0] : List Message).length - 1)).length =
          min 1 ([msg0] : List Message).length) :=
  ⟨Nat.le_refl 1, getContextForRAG_last_messages [msg0] 1 (Nat.le_refl 1)⟩

/-- C8 counterexample: an append issued while the connection is down does
not fail with `StoreUnavailable`; the code logs a warning and returns an
empty list. -/
theorem addToSessionHistory_down_no_error :
    ¬ ((addToSessionHistory false [] msg0 "t0").1 =
        Except.error StoreError.storeUnavailable) := by
  intro h
  simp [addToSessionHistory] at h

/-- C8 (amended): while the connection is down, `addToSessionHistory`
returns an empty list and writes nothing (it degrades gracefully instead of
raising `StoreUnavailable`); while it is up, it overwrites the session key
with the trimmed history, and that overwrite is idempotent. -/
theorem addToSessionHistory_behaviour :
    (∀ (stored : List Message) (m : Message) (now : String),
        addToSessionHistory false stored m now = (Except.ok [], none)) ∧
      (∀ (stored : List Message) (m : Message) (now : String),
        addToSessionHistory true stored m now =
          (Except.ok (addToSessionHistoryCore stored m now),
            some (addToSessionHistoryCore stored m now))) ∧
      (∀ (st : String → Option String) (k v : String),
        setKeyEx (setKeyEx st k v) k v = setKeyEx st k v) := by
  refine ⟨fun _ _ _ => rfl, fun _ _ _ => rfl, fun st k v => ?_⟩
  funext q
  unfold setKeyEx
  by_cases h : q = k <;> simp [h]

/-! ## Context-builder lemmas -/

lemma buildContextLoop_eq_greedy :
    ∀ (docs : List Str) (metas : List DocMetadata) (dists : List ℚ)
      (maxLength currentLength : Nat) (context : Str),
      buildContextLoop docs metas dists maxLength currentLength context =
        context ++ (greedyWholeBlocks
          (((docs.zip (metas.zip dists)).filter fun t => !(t.2.2 > distanceCutoff)).map
            fun t => docContextBlock t.2.1 t.1) maxLength currentLength).flatten := by
  intro docs
  induction docs with
  | nil => intro metas dists maxLength currentLength context; simp [buildContextLoop, greedyWholeBlocks]
  | cons d ds ih =>
    intro metas dists maxLength currentLength context
    cases metas with
    | nil => simp [buildContextLoop, greedyWholeBlocks]
    | cons m ms =>
      cases dists with
      | nil => simp [buildContextLoop, greedyWholeBlocks]
      | cons q qs =>
        by_cases hq : q > distanceCutoff
        · have hf : (!decide (q > distanceCutoff)) = false := by simp [hq]
          simp only [buildContextLoop, if_pos hq, List.zip_cons_cons, List.filter_cons, hf,
            Bool.false_eq_true, if_false]
          exact ih ms qs maxLength currentLength context
        · have hf : (!decide (q > distanceCutoff)) = true := by simp [hq]
          simp only [buildContextLoop, if_neg hq, List.zip_cons_cons, List.filter_cons, hf,
            if_true, List.map_cons, greedyWholeBlocks]
          by_cases hlen : currentLength + (docContextBlock m d).length > maxLength
          · simp [hlen]
          · simp only [if_neg hlen, List.flatten_cons]
            rw [ih ms qs maxLength (currentLength + (docContextBlock m d).length)
              (context ++ docContextBlock m d)]
            rw [List.append_assoc]

lemma greedy_flatten_length :
    ∀ (bs : List Str) (maxChars acc : Nat),
      acc + ((greedyWholeBlocks bs maxChars acc).flatten).length ≤ maxChars ∨
        greedyWholeBlocks bs maxChars acc = [] := by
  intro bs
  induction bs with
  | nil => intro maxChars acc; right; rfl
  | cons b bs ih =>
    intro maxChars acc
    unfold greedyWholeBlocks
    by_cases h : acc + b.length > maxChars
    · right; simp [h]
    · left
      simp only [if_neg h, List.flatten_cons, List.length_append]
      rcases ih maxChars (acc + b.length) with h2 | h2
      · omega
      · rw [h2]
        simp only [List.flatten_nil, List.length_nil]
        omega

lemma jsTrimRight_length_le (s : Str) : (jsTrimRight s).length ≤ s.length := by
  unfold jsTrimRight
  rw [List.length_reverse]
  calc (s.reverse.dropWhile isJsWhitespace).length ≤ s.reverse.length :=
        (List.dropWhile_sublist _).length_le
    _ = s.length := List.length_reverse s

lemma jsTrim_length_le (s : Str) : (jsTrim s).length ≤ s.length := by
  unfold jsTrim
  calc (jsTrimRight (jsTrimLeft s)).length ≤ (jsTrimLeft s).length := jsTrimRight_length_le _
    _ ≤ s.length := (List.dropWhile_sublist _).length_le

lemma buildContext_eq_greedy (sr : SearchResults) (maxLength : Nat) :
    buildContext sr maxLength =
      jsTrim (greedyWholeBlocks (keptBlocks sr) maxLength 0).flatten := by
  unfold buildContext keptBlocks keptTriples rowTriples
  rw [buildContextLoop_eq_greedy]
  simp

/-- C3: for every search result and every character budget, the built
context has length at most the budget, and it is exactly the trim of the
whole formatted blocks of the distance-surviving passages accumulated
greedily in rank order, stopping at the first block whose addition would
exceed the budget (so no block is ever split). -/
theorem buildContext_within_budget (sr : SearchResults) (maxLength : Nat) :
    (buildContext sr maxLength).length ≤ maxLength ∧
      buildContext sr maxLength =
        jsTrim (greedyWholeBlocks (keptBlocks sr) maxLength 0).flatten := by
  refine ⟨?_, buildContext_eq_greedy sr maxLength⟩
  rw [buildContext_eq_greedy sr maxLength]
  have hle := jsTrim_length_le (greedyWholeBlocks (keptBlocks sr) maxLength 0).flatten
  rcases greedy_flatten_length (keptBlocks sr) maxLength 0 with h | h
  · omega
  · rw [h]
    simp [jsTrim, jsTrimLeft, jsTrimRight]

lemma keptTriples_filterByDistance (sr : SearchResults) :
    keptTriples (filterByDistance sr) = keptTriples sr := by
  have h1 : rowTriples (filterByDistance sr) = keptTriples sr := by
    unfold rowTriples filterByDistance
    simp only [List.headD_cons]
    rw [List.zip_map', List.zip_map']
    simp [Prod.mk.eta]
  have h2 : List.filter (fun t => !decide (t.2.2 > distanceCutoff)) (keptTriples sr) =
      keptTriples sr := by
    apply List.filter_eq_self.mpr
    intro a ha
    unfold keptTriples at ha
    exact (List.mem_filter.mp ha).2
  unfold keptTriples
  rw [h1, h2]
  rfl

/-- C4: building context from a search result is the same as building it
from the result with every passage of distance above 0.8 removed — no such
passage ever contributes a block, regardless of its rank, and skipped
passages consume none of the character budget. -/
theorem buildContext_skips_far_passages (sr : SearchResults) (maxLength : Nat) :
    buildContext sr maxLength = buildContext (filterByDistance sr) maxLength := by
  rw [buildContext_eq_greedy, buildContext_eq_greedy]
  unfold keptBlocks
  rw [keptTriples_filterByDistance]

/-! ## Query-processing theorems -/

/-- C5: when retrieval yields zero documents, `processQuery` returns the
fixed "couldn't find any relevant information" message with an empty
sources list and null token usage, and the generation step never runs. -/
theorem processQuery_no_documents (sr : SearchResults) (gen : Str → GenOut)
    (h : sr.documents.headD [] = []) :
    processQuery sr gen =
      ({ content := noResultsMsg, sources := [], tokensUsed := none }, false) := by
  unfold processQuery
  rw [h]
  rfl

/-- Witness for C5 at a search result with no documents. -/
theorem processQuery_no_documents_witness :
    srEmpty.documents.headD [] = [] ∧
      processQuery srEmpty gen0 =
        ({ content := noResultsMsg, sources := [], tokensUsed := none }, false) :=
  ⟨rfl, processQuery_no_documents srEmpty gen0 rfl⟩

/-- C6: when retrieval is non-empty but the built context is empty, the
code returns the fixed "not closely related" message with an empty sources
list and null token usage, and the generation step never runs. -/
theorem processQuery_empty_context (sr : SearchResults) (gen : Str → GenOut)
    (h1 : sr.documents.headD [] ≠ []) (h2 : buildContext sr MAX_CONTEXT_LENGTH = []) :
    processQuery sr gen =
      ({ content := notRelatedMsg, sources := [], tokensUsed := none }, false) := by
  have he : (sr.documents.headD []).isEmpty = false := by
    cases hh : sr.documents.headD [] with
    | nil => exact absurd hh h1
    | cons a l => rfl
  unfold processQuery
  rw [he, h2]
  rfl

/-- Witness for C6 at a search result whose only passage is filtered out
by the distance cutoff. -/
theorem processQuery_empty_context_witness :
    srFar.documents.headD [] ≠ [] ∧ buildContext srFar MAX_CONTEXT_LENGTH = [] ∧
      processQuery srFar gen0 =
        ({ content := notRelatedMsg, sources := [], tokensUsed := none }, false) :=
  ⟨by decide, by decide,
    processQuery_empty_context srFar gen0 (by decide) (by decide)⟩

/-- C9: when the query's hash is present in the query cache, the search
returns the cached raw result unchanged, the embedding/vector-search path
never runs, and the cache is left as it was. -/
theorem searchChroma_cache_hit (hash : String → String) (cache : String → Option SearchResults)
    (embedSearch : String → SearchResults) (query : String) (r : SearchResults)
    (h : cache (hash query) = some r) :
    searchChroma hash cache embedSearch query = (r, false, cache) := by
  simp [searchChroma, h]

/-- Witness for C9 at a concrete cache holding the key `"q"`. -/
theorem searchChroma_cache_hit_witness :
    cache0 (hash0 "q") = some srGood ∧
      searchChroma hash0 cache0 embed0 "q" = (srGood, false, cache0) :=
  ⟨rfl, searchChroma_cache_hit hash0 cache0 embed0 "q" srGood rfl⟩

/-! ## Split and startsWith lemmas -/

lemma splitOnChar_ne_nil (c : Char) (s : Str) : splitOnChar c s ≠ [] := by
  induction s with
  | nil => simp [splitOnChar]
  | cons x xs ih =>
    unfold splitOnChar
    by_cases h : x = c
    · simp [h]
    · simp only [if_neg h]
      cases hr : splitOnChar c xs with
      | nil => simp
      | cons l ls => simp

lemma splitOnChar_append (c : Char) (a b : Str) :
    splitOnChar c (a ++ c :: b) = splitOnChar c a ++ splitOnChar c b := by
  induction a with
  | nil => simp [splitOnChar]
  | cons x a ih =>
    by_cases h : x = c
    · subst h
      simp [List.cons_append, splitOnChar, ih]
    · simp only [List.cons_append, splitOnChar, if_neg h, List.append_eq]
      rw [ih]
      cases hr : splitOnChar c a with
      | nil => exact absurd hr (splitOnChar_ne_nil c a)
      | cons l ls => simp

lemma splitOnChar_eq_single (c : Char) (a : Str) (h : c ∉ a) : splitOnChar c a = [a] := by
  induction a with
  | nil => rfl
  | cons x a ih =>
    have hx : ¬ x = c := by
      intro hxc
      exact h (hxc ▸ List.mem_cons_self x a)
    have ha : c ∉ a := fun hm => h (List.mem_cons_of_mem _ hm)
    simp [splitOnChar, if_neg hx, ih ha]

lemma jsStartsWith_nil_key (l : Str) : jsStartsWith l [] = true := by
  cases l with
  | nil => rfl
  | cons a as => rfl

lemma jsStartsWith_key_append (k r : Str) : jsStartsWith (k ++ r) k = true := by
  induction k with
  | nil => exact jsStartsWith_nil_key r
  | cons x k ih => simp [jsStartsWith, ih]

lemma jsStartsWith_cons_ne (c : Char) (cs : Str) (k : Char) (ks : Str) (h : c ≠ k) :
    jsStartsWith (c :: cs) (k :: ks) = false := by
  have hb : (c == k) = false := by simp [h]
  simp [jsStartsWith, hb]

lemma jsStartsWith_head_ne (k₁ k₂ r : Str) (c₁ c₂ : Char) (t₁ t₂ : Str)
    (h₁ : k₁ = c₁ :: t₁) (h₂ : k₂ = c₂ :: t₂) (h : c₁ ≠ c₂) :
    jsStartsWith (k₁ ++ r) k₂ = false := by
  subst h₁ h₂
  exact jsStartsWith_cons_ne c₁ (t₁ ++ r) c₂ t₂ h

/-! ## Scanner lemmas -/

lemma renderTitle_ne_nil (meta : DocMetadata) : renderTitle meta ≠ [] := by
  unfold renderTitle
  cases meta.title with
  | none => decide
  | some t =>
    cases t with
    | nil => decide
    | cons a as => simp [List.isEmpty_cons]

lemma renderSource_ne_nil (meta : DocMetadata) : renderSource meta ≠ [] := by
  unfold renderSource
  cases meta.source with
  | none => decide
  | some t =>
    cases t with
    | nil => decide
    | cons a as => simp [List.isEmpty_cons]

lemma truthy_some_of_ne_nil (s : Str) (h : s ≠ []) : truthy (some s) = true := by
  unfold truthy
  cases s with
  | nil => exact absurd rfl h
  | cons a as => rfl

lemma scanTitleStep (rt : Str) (rest : List Str) (cur : CurrentSource) :
    extractSourcesLoop ((titleKey ++ rt) :: rest) cur =
      extractSourcesLoop rest { cur with title := some rt } := by
  simp [extractSourcesLoop, jsStartsWith_key_append, List.drop_left]

lemma scanSourceStep (rs : Str) (rest : List Str) (cur : CurrentSource) :
    extractSourcesLoop ((sourceKey ++ rs) :: rest) cur =
      extractSourcesLoop rest { cur with source := some rs } := by
  have h1 : jsStartsWith (sourceKey ++ rs) titleKey = false :=
    jsStartsWith_head_ne sourceKey titleKey rs 'S' 'T' ['o', 'u', 'r', 'c', 'e', ':', ' ']
      ['i', 't', 'l', 'e', ':', ' '] rfl rfl (by decide)
  simp [extractSourcesLoop, h1, jsStartsWith_key_append, List.drop_left]

lemma scanUrlStep (ru : Str) (rest : List Str) (cur : CurrentSource) :
    extractSourcesLoop ((urlKey ++ ru) :: rest) cur =
      if truthy cur.title && truthy cur.source then
        { cur with url := some ru } :: extractSourcesLoop rest emptyCurrentSource
      else extractSourcesLoop rest emptyCurrentSource := by
  have h1 : jsStartsWith (urlKey ++ ru) titleKey = false :=
    jsStartsWith_head_ne urlKey titleKey ru 'U' 'T' ['R', 'L', ':', ' ']
      ['i', 't', 'l', 'e', ':', ' '] rfl rfl (by decide)
  have h2 : jsStartsWith (urlKey ++ ru) sourceKey = false :=
    jsStartsWith_head_ne urlKey sourceKey ru 'U' 'S' ['R', 'L', ':', ' ']
      ['o', 'u', 'r', 'c', 'e', ':', ' '] rfl rfl (by decide)
  simp [extractSourcesLoop, h1, h2, jsStartsWith_key_append, List.drop_left]

lemma scanInertLine (line : Str) (rest : List Str) (cur : CurrentSource)
    (h1 : jsStartsWith line titleKey = false) (h2 : jsStartsWith line sourceKey = false)
    (h3 : jsStartsWith line urlKey = false) :
    extractSourcesLoop (line :: rest) cur = extractSourcesLoop rest cur := by
  simp [extractSourcesLoop, h1, h2, h3]

lemma scanInertLines (lines rest : List Str) (cur : CurrentSource)
    (h : ∀ l ∈ lines, jsStartsWith l titleKey = false ∧ jsStartsWith l sourceKey = false ∧
      jsStartsWith l urlKey = false) :
    extractSourcesLoop (lines ++ rest) cur = extractSourcesLoop rest cur := by
  induction lines with
  | nil => rfl
  | cons l ls ih =>
    obtain ⟨h1, h2, h3⟩ := h l (List.mem_cons_self l ls)
    rw [List.cons_append, scanInertLine _ _ _ h1 h2 h3]
    exact ih fun x hx => h x (List.mem_cons_of_mem _ hx)

lemma scanBodyLines (meta : DocMetadata) (doc : Str) (rest : List Str)
    (hcontent : ∀ l ∈ splitOnChar '\n' (contentKey ++ doc),
      jsStartsWith l titleKey = false ∧ jsStartsWith l sourceKey = false ∧
        jsStartsWith l urlKey = false) :
    extractSourcesLoop (bodyLines meta doc ++ rest) emptyCurrentSource =
      entryOfMeta meta :: extractSourcesLoop rest emptyCurrentSource := by
  unfold bodyLines
  rw [List.cons_append, List.cons_append, List.cons_append, scanTitleStep, scanSourceStep,
    scanUrlStep, List.append_assoc, scanInertLines _ _ _ hcontent, List.singleton_append,
    scanInertLine dashesStr rest _ (by decide) (by decide) (by decide)]
  have ht := truthy_some_of_ne_nil (renderTitle meta) (renderTitle_ne_nil meta)
  have hs := truthy_some_of_ne_nil (renderSource meta) (renderSource_ne_nil meta)
  simp [entryOfMeta, emptyCurrentSource, ht, hs]

/-! ## Trim and line-structure lemmas -/

lemma jsTrimRight_append_dash (s : Str) : jsTrimRight (s ++ ['-']) = s ++ ['-'] := by
  have hd : ¬ isJsWhitespace '-' = true := by decide
  unfold jsTrimRight
  rw [List.reverse_append]
  simp only [List.reverse_cons, List.reverse_nil, List.nil_append, List.singleton_append]
  rw [List.dropWhile_cons_of_neg hd]
  simp

lemma innerBlock_ends_dash (meta : DocMetadata) (doc : Str) :
    ∃ e, innerBlock meta doc = e ++ ['-'] := by
  refine ⟨titleKey ++ renderTitle meta ++
    '\n' :: (sourceKey ++ renderSource meta ++
      '\n' :: (urlKey ++ renderUrl meta ++
        '\n' :: (contentKey ++ doc ++ '\n' :: ['-', '-']))), ?_⟩
  simp [innerBlock, dashesStr, List.append_assoc]

lemma blocksConcat_ends_dash (ps : List (DocMetadata × Str)) (h : ps ≠ []) :
    ∃ e, blocksConcat ps = e ++ ['-'] := by
  induction ps with
  | nil => exact absurd rfl h
  | cons p ps ih =>
    cases ps with
    | nil =>
      obtain ⟨e, he⟩ := innerBlock_ends_dash p.1 p.2
      exact ⟨'\n' :: e, by simp [blocksConcat, docContextBlock, he]⟩
    | cons q qs =>
      obtain ⟨e, he⟩ := ih (by simp)
      refine ⟨docContextBlock p.1 p.2 ++ e, ?_⟩
      rw [show blocksConcat (p :: q :: qs) =
        docContextBlock p.1 p.2 ++ blocksConcat (q :: qs) from rfl, he, List.append_assoc]

lemma innerBlock_head (meta : DocMetadata) (doc : Str) (r : Str) :
    ∃ t, innerBlock meta doc ++ r = 'T' :: t := by
  refine ⟨['i', 't', 'l', 'e', ':', ' '] ++ (renderTitle meta ++
    '\n' :: (sourceKey ++ renderSource meta ++ '\n' :: (urlKey ++ renderUrl meta ++
      '\n' :: (contentKey ++ doc ++ '\n' :: dashesStr)))) ++ r, ?_⟩
  simp [innerBlock, titleKey, List.append_assoc]

lemma jsTrim_blocksConcat_cons (p : DocMetadata × Str) (ps : List (DocMetadata × Str)) :
    jsTrim (blocksConcat (p :: ps)) = innerBlock p.1 p.2 ++ blocksConcat ps := by
  have hshape : blocksConcat (p :: ps) = '\n' :: (innerBlock p.1 p.2 ++ blocksConcat ps) := by
    simp [blocksConcat, docContextBlock]
  rw [hshape]
  unfold jsTrim jsTrimLeft
  rw [List.dropWhile_cons_of_pos (by decide)]
  obtain ⟨t, ht⟩ := innerBlock_head p.1 p.2 (blocksConcat ps)
  rw [ht, List.dropWhile_cons_of_neg (by decide), ← ht]
  rcases eq_or_ne ps [] with hps | hps
  · subst hps
    obtain ⟨e, he⟩ := innerBlock_ends_dash p.1 p.2
    simp only [blocksConcat, List.append_nil, he]
    exact jsTrimRight_append_dash e
  · obtain ⟨e, he⟩ := blocksConcat_ends_dash ps hps
    rw [he, ← List.append_assoc]
    exact jsTrimRight_append_dash _

lemma splitOnChar_innerBlock (meta : DocMetadata) (doc : Str)
    (ht : '\n' ∉ renderTitle meta) (hs : '\n' ∉ renderSource meta)
    (hu : '\n' ∉ renderUrl meta) :
    splitOnChar '\n' (innerBlock meta doc) = bodyLines meta doc := by
  have h1 : '\n' ∉ titleKey ++ renderTitle meta := by
    intro hm
    rcases List.mem_append.mp hm with hm | hm
    · revert hm; decide
    · exact ht hm
  have h2 : '\n' ∉ sourceKey ++ renderSource meta := by
    intro hm
    rcases List.mem_append.mp hm with hm | hm
    · revert hm; decide
    · exact hs hm
  have h3 : '\n' ∉ urlKey ++ renderUrl meta := by
    intro hm
    rcases List.mem_append.mp hm with hm | hm
    · revert hm; decide
    · exact hu hm
  have h4 : ('\n' : Char) ∉ dashesStr := by decide
  unfold innerBlock bodyLines
  rw [splitOnChar_append, splitOnChar_append, splitOnChar_append, splitOnChar_append]
  rw [splitOnChar_eq_single _ _ h1, splitOnChar_eq_single _ _ h2,
    splitOnChar_eq_single _ _ h3, splitOnChar_eq_single _ _ h4]
  simp

lemma lines_blocksConcat :
    ∀ (p : DocMetadata × Str) (ps : List (DocMetadata × Str)),
      CleanPassage p.1 p.2 → (∀ q ∈ ps, CleanPassage q.1 q.2) →
      splitOnChar '\n' (innerBlock p.1 p.2 ++ blocksConcat ps) =
        bodyLines p.1 p.2 ++ allBodyLines ps := by
  intro p ps
  induction ps generalizing p with
  | nil =>
    intro hp _
    obtain ⟨ht, hs, hu, hc⟩ := hp
    simp only [blocksConcat, List.append_nil, allBodyLines]
    rw [splitOnChar_innerBlock p.1 p.2 ht hs hu]
  | cons q qs ih =>
    intro hp hqs
    obtain ⟨ht, hs, hu, hc⟩ := hp
    have hshape : blocksConcat (q :: qs) = '\n' :: (innerBlock q.1 q.2 ++ blocksConcat qs) := by
      simp [blocksConcat, docContextBlock]
    rw [hshape, splitOnChar_append, splitOnChar_innerBlock p.1 p.2 ht hs hu,
      ih q (hqs q (List.mem_cons_self q qs)) (fun x hx => hqs x (List.mem_cons_of_mem _ hx))]
    simp [allBodyLines]

lemma scanAllBodyLines :
    ∀ (ps : List (DocMetadata × Str)), (∀ q ∈ ps, CleanPassage q.1 q.2) →
      extractSourcesLoop (allBodyLines ps) emptyCurrentSource =
        ps.map fun q => entryOfMeta q.1 := by
  intro ps
  induction ps with
  | nil => intro _; rfl
  | cons p ps ih =>
    intro h
    obtain ⟨_, _, _, hc⟩ := h p (List.mem_cons_self p ps)
    simp only [allBodyLines]
    rw [scanBodyLines p.1 p.2 _ hc, ih (fun x hx => h x (List.mem_cons_of_mem _ hx))]
    simp

lemma buildContextLoop_eq_blocksConcat :
    ∀ (docs : List Str) (metas : List DocMetadata) (dists : List ℚ)
      (maxLength currentLength : Nat) (context : Str),
      buildContextLoop docs metas dists maxLength currentLength context =
        context ++ blocksConcat (includedLoop docs metas dists maxLength currentLength) := by
  intro docs
  induction docs with
  | nil =>
    intro metas dists maxLength currentLength context
    simp [buildContextLoop, includedLoop, blocksConcat]
  | cons d ds ih =>
    intro metas dists maxLength currentLength context
    cases metas with
    | nil => simp [buildContextLoop, includedLoop, blocksConcat]
    | cons m ms =>
      cases dists with
      | nil => simp [buildContextLoop, includedLoop, blocksConcat]
      | cons q qs =>
        by_cases hq : q > distanceCutoff
        · simp only [buildContextLoop, includedLoop, if_pos hq]
          exact ih ms qs maxLength currentLength context
        · simp only [buildContextLoop, includedLoop, if_neg hq]
          by_cases hlen : currentLength + (docContextBlock m d).length > maxLength
          · simp [hlen, blocksConcat]
          · simp only [if_neg hlen, blocksConcat]
            rw [ih, List.append_assoc]

/-- C2 (amended): when every passage included in the context is clean —
its rendered title/source/url contain no newline and no line of its
`Content: `-prefixed text mimics a `Title: `/`Source: `/`URL: ` field —
`extractSources` applied to the built context yields exactly one
`{title, source, url}` entry per included passage, matching that passage's
rendered metadata, in rank order.  (Without the cleanliness condition the
correspondence fails; see the counterexample.) -/
theorem extractSources_matches_included (sr : SearchResults) (maxLength : Nat)
    (h : ∀ q ∈ includedPassages sr maxLength, CleanPassage q.1 q.2) :
    extractSources (buildContext sr maxLength) =
      (includedPassages sr maxLength).map fun q => entryOfMeta q.1 := by
  have hb : buildContext sr maxLength =
      jsTrim (blocksConcat (includedPassages sr maxLength)) := by
    unfold buildContext includedPassages
    rw [buildContextLoop_eq_blocksConcat]
    simp
  rw [hb]
  cases hps : includedPassages sr maxLength with
  | nil => rfl
  | cons p ps =>
    rw [hps] at h
    rw [jsTrim_blocksConcat_cons]
    unfold extractSources
    rw [lines_blocksConcat p ps (h p (List.mem_cons_self p ps))
      (fun x hx => h x (List.mem_cons_of_mem _ hx))]
    rw [show bodyLines p.1 p.2 ++ allBodyLines ps = allBodyLines (p :: ps) from rfl]
    exact scanAllBodyLines (p :: ps) h

/-- C2 counterexample: a single included passage whose document text itself
contains `Title:`/`Source:`/`URL:` lines makes `extractSources` return
entries that are not one-per-included-passage with that passage's
metadata. -/
theorem extractSources_mismatch_counterexample :
    extractSources (buildContext srBad MAX_CONTEXT_LENGTH) ≠
      (includedPassages srBad MAX_CONTEXT_LENGTH).map fun q => entryOfMeta q.1 := by
  decide

/-- Witness for C2 (amended) at a clean two-passage search result. -/
theorem extractSources_matches_included_witness :
    (∀ q ∈ includedPassages srGood MAX_CONTEXT_LENGTH, CleanPassage q.1 q.2) ∧
      extractSources (buildContext srGood MAX_CONTEXT_LENGTH) =
        (includedPassages srGood MAX_CONTEXT_LENGTH).map fun q => entryOfMeta q.1 :=
  ⟨by decide, extractSources_matches_included srGood MAX_CONTEXT_LENGTH (by decide)⟩

lemma countP_le_cons (p : Str → Bool) (a : Str) (l : List Str) :
    List.countP p l ≤ List.countP p (a :: l) := by
  rw [List.countP_cons]
  exact Nat.le_add_right _ _

/-- C10: every entry `extractSources` emits has all three fields present —
truthy (hence non-empty) title and source strings and a set url — and
entries are only emitted at lines starting with `URL: `, so there are at
most as many entries as such lines. -/
theorem extractSources_entries_wellformed (context : Str) :
    ((extractSources context).all fun e =>
        truthy e.title && truthy e.source && e.url.isSome) = true ∧
      (extractSources context).length ≤
        (splitOnChar '\n' context).countP fun l => jsStartsWith l urlKey := by
  have main : ∀ (lines : List Str) (cur : CurrentSource),
      ((extractSourcesLoop lines cur).all fun e =>
          truthy e.title && truthy e.source && e.url.isSome) = true ∧
        (extractSourcesLoop lines cur).length ≤
          lines.countP fun l => jsStartsWith l urlKey := by
    intro lines
    induction lines with
    | nil => intro cur; exact ⟨rfl, Nat.le_refl 0⟩
    | cons l ls ih =>
      intro cur
      by_cases h1 : jsStartsWith l titleKey = true
      · simp only [extractSourcesLoop, h1, if_true]
        rcases ih { cur with title := some (l.drop titleKey.length) } with ⟨ha, hl⟩
        exact ⟨ha, hl.trans (countP_le_cons _ l ls)⟩
      · by_cases h2 : jsStartsWith l sourceKey = true
        · simp only [extractSourcesLoop, h1, h2, if_true, Bool.false_eq_true, if_false]
          rcases ih { cur with source := some (l.drop sourceKey.length) } with ⟨ha, hl⟩
          exact ⟨ha, hl.trans (countP_le_cons _ l ls)⟩
        · by_cases h3 : jsStartsWith l urlKey = true
          · have hc : (List.countP (fun l => jsStartsWith l urlKey) (l :: ls)) =
                (List.countP (fun l => jsStartsWith l urlKey) ls) + 1 := by
              simp [List.countP_cons, h3]
            simp only [extractSourcesLoop, h1, h2, h3, if_true, Bool.false_eq_true, if_false]
            rcases ih emptyCurrentSource with ⟨ha, hl⟩
            by_cases hg : (truthy cur.title && truthy cur.source) = true
            · simp only [hg, if_true, List.all_cons, List.length_cons]
              constructor
              · simp [hg, ha]
              · omega
            · simp only [hg, Bool.false_eq_true, if_false]
              exact ⟨ha, by omega⟩
          · simp only [extractSourcesLoop, h1, h2, h3, Bool.false_eq_true, if_false]
            rcases ih cur with ⟨ha, hl⟩
            exact ⟨ha, hl.trans (countP_le_cons _ l ls)⟩
  exact main (splitOnChar '\n' context) emptyCurrentSource
